import Mathlib

/-!
Verification of the forge-abstraction layer of the `gitpr` command-line
client (sources: `src/gitpr/forges.py`, `src/gitpr/main.py`) against its
natural-language specification.

The Python sources are shallowly embedded: provider objects become
structures, attribute access becomes field access, optional/None-valued
Python values become `Option`, Python exceptions become `Except`/`Option`,
and the network boundary is modelled by recording the request data a call
would send to the provider.
-/

namespace GitPR

/-! ## Data model (`forges.py`)

Raw provider objects as the two client libraries deliver them.  A raw
GitHub pull request carries an explicit `merged` boolean and a `state`
string; a raw GitLab merge request carries only a `state` string.  The
nullable `body` / `description` fields are `Option String`. -/

structure GithubRawPR where
  number : Nat
  title : String
  body : Option String
  html_url : String
  state : String
  user_login : String
  merged : Bool
  head_ref : String
deriving Repr, DecidableEq

structure GitlabRawMR where
  iid : Nat
  title : String
  description : Option String
  web_url : String
  state : String
  author_username : String
  source_branch : String
deriving Repr, DecidableEq

/-- The canonical change-request entity (`StandardPR` in `forges.py`):
"A generic PR object that looks the same whether from GitHub or GitLab". -/
structure StandardPR where
  number : Nat
  title : String
  body : Option String
  url : String
  state : String
  author : String
  merged : Bool
  head_ref : String
deriving Repr, DecidableEq

/-- `StandardPR.__init__` with `source="github"`: every field is copied
verbatim from the raw object (`self.merged = raw_obj.merged`,
`self.state = raw_obj.state`). -/
def standardPRFromGithub (raw : GithubRawPR) : StandardPR :=
  { number := raw.number
    title := raw.title
    body := raw.body
    url := raw.html_url
    state := raw.state
    author := raw.user_login
    merged := raw.merged
    head_ref := raw.head_ref }

/-- `StandardPR.__init__` with `source="gitlab"`: `merged` is derived as
`raw_obj.state == 'merged'`; the other fields are copied verbatim. -/
def standardPRFromGitlab (raw : GitlabRawMR) : StandardPR :=
  { number := raw.iid
    title := raw.title
    body := raw.description
    url := raw.web_url
    state := raw.state
    author := raw.author_username
    merged := raw.state == "merged"
    head_ref := raw.source_branch }

/-! ## `find_merged_branches` (`forges.py`)

The repository state seen by the forge clients is the list of raw
change-request objects the provider would return. -/

/-- `self.repo.get_pulls(state='closed')`: GitHub returns the pull
requests whose state string is `"closed"`, in its native order. -/
def githubGetPullsClosed (repo : List GithubRawPR) : List GithubRawPR :=
  repo.filter (fun p => p.state == "closed")

/-- `GitHubForge.find_merged_branches`:
`[p.head.ref for p in self.repo.get_pulls(state='closed') if p.merged]`. -/
def githubFindMergedBranches (repo : List GithubRawPR) : List String :=
  ((githubGetPullsClosed repo).filter (fun p => p.merged)).map (fun p => p.head_ref)

/-- `self.project.mergerequests.list(state='merged')`: GitLab returns the
merge requests whose state string is `"merged"`, in its native order. -/
def gitlabListMerged (proj : List GitlabRawMR) : List GitlabRawMR :=
  proj.filter (fun mr => mr.state == "merged")

/-- `GitLabForge.find_merged_branches`:
`[mr.source_branch for mr in self.project.mergerequests.list(state='merged')]`. -/
def gitlabFindMergedBranches (proj : List GitlabRawMR) : List String :=
  (gitlabListMerged proj).map (fun mr => mr.source_branch)

/-! ## `create_pr` (`forges.py`)

Creation is modelled by the request record each client sends to its
provider. -/

structure GithubPullCreateRequest where
  title : String
  body : String
  head : String
  base : String
  draft : Bool
deriving Repr, DecidableEq

/-- `GitHubForge.create_pr`: `self.repo.create_pull(title=title, body=body,
head=source, base=target, draft=draft)` — all arguments pass through
unmodified, including the native `draft` flag. -/
def githubCreatePrRequest (title body source target : String) (draft : Bool) :
    GithubPullCreateRequest :=
  { title := title, body := body, head := source, base := target, draft := draft }

structure GitlabMRCreateRequest where
  source_branch : String
  target_branch : String
  title : String
  description : String
deriving Repr, DecidableEq

/-- `GitLabForge.create_pr`: `title = f"Draft: {title}" if draft else title`,
then `self.project.mergerequests.create({...})` (GitLab has no native
draft flag in this client code). -/
def gitlabCreatePrRequest (title body source target : String) (draft : Bool) :
    GitlabMRCreateRequest :=
  { source_branch := source
    target_branch := target
    title := if draft then "Draft: " ++ title else title
    description := body }

/-! ## `edit_pr` (`forges.py`)

The provider-side mutable fields of one change request, before and after
an edit.  A Python default-`None` / empty-string argument is falsy. -/

structure StoredPR where
  title : String
  body : String
deriving Repr, DecidableEq

/-- Python truthiness of an optional string argument: `None` and `""` are
falsy, every non-empty string is truthy. -/
def pyTruthy : Option String → Bool
  | none => false
  | some s => !(s == "")

/-- `GitHubForge.edit_pr`: builds `kwargs`, adding `title` / `body` only
when truthy, then `self.repo.get_pull(number).edit(**kwargs)` — a key
absent from `kwargs` leaves the provider value untouched. -/
def githubEditPr (pr : StoredPR) (title body : Option String) : StoredPR :=
  let kwargsTitle : Option String := if pyTruthy title then title else none
  let kwargsBody : Option String := if pyTruthy body then body else none
  { title := kwargsTitle.getD pr.title, body := kwargsBody.getD pr.body }

/-- `GitLabForge.edit_pr`: `if title: mr.title = title`,
`if body: mr.description = body`, then `mr.save()`. -/
def gitlabEditPr (mr : StoredPR) (title body : Option String) : StoredPR :=
  let mr1 := if pyTruthy title then { mr with title := title.getD "" } else mr
  let mr2 := if pyTruthy body then { mr1 with body := body.getD "" } else mr1
  mr2

/-! ## `submit_review` (`forges.py`, GitLab side)

The approval call `mr.approve()` raises (HTTP 405) when the merge request
is already approved by the caller; the notes (comments) on the merge
request are a list of body strings. -/

structure GLMRState where
  approved : Bool
  notes : List String
deriving Repr, DecidableEq

/-- `mr.approve()` as the python-gitlab client exposes it: succeeds and
marks the request approved, or raises when the provider rejects the
approval (e.g. already approved). -/
def mrApprove (mr : GLMRState) : Except String GLMRState :=
  if mr.approved then Except.error "405 Method Not Allowed"
  else Except.ok { mr with approved := true }

/-- `GitLabForge.submit_review`: on `"APPROVE"`, `try: mr.approve()
except: pass`, then always `mr.notes.create({'body': f"✅ Approved: {body}"})`;
otherwise a note with a `"⛔ Requesting Changes: "` marker for
`"REQUEST_CHANGES"` and the bare body for anything else. -/
def gitlabSubmitReview (mr : GLMRState) (event body : String) :
    Except String GLMRState :=
  if event == "APPROVE" then
    let mr1 := match mrApprove mr with
      | Except.ok m => m
      | Except.error _ => mr
    Except.ok { mr1 with notes := mr1.notes ++ ["✅ Approved: " ++ body] }
  else
    let marker := if event == "REQUEST_CHANGES" then "⛔ Requesting Changes: " else ""
    Except.ok { mr with notes := mr.notes ++ [marker ++ body] }

/-! ## `GitLabForge.__init__` base-URL substitution (`forges.py`)

`if "api.github.com" in base_url: base_url = "https://gitlab.com"` —
Python's `in` on strings is contiguous-substring containment. -/

/-- The URL `GitLabForge.__init__` actually hands to `gitlab.Gitlab(url=...)`. -/
def gitlabEffectiveBaseUrl (base_url : String) : String :=
  if "api.github.com".data <:+: base_url.data then "https://gitlab.com" else base_url

/-! ## `get_current_repo_context` (`main.py`)

`re.search(r"[:/]([\w-]+)/([\w-]+)(?:\.git)?$", remote_url)`.

The pattern is anchored at the end by `$` and its two capture groups are
runs over the class `[\w-]`, which contains neither `/` nor `.`; with a
leftmost search this collapses to a deterministic scan: at the first
position whose character is `:` or `/` and whose remaining suffix splits
as a maximal non-empty `[\w-]` run, a `/`, a second maximal non-empty run,
and a remainder that is exactly empty or exactly `".git"`, the two runs
are the groups.  `\w` is modelled over ASCII word characters. -/

def isWordDash (c : Char) : Bool := c.isAlphanum || c == '_' || c == '-'

/-- Splits a character list into its maximal leading run of `[\w-]`
characters and the rest. -/
def takeRun : List Char → List Char × List Char
  | [] => ([], [])
  | c :: cs =>
    if isWordDash c then
      let r := takeRun cs
      (c :: r.1, r.2)
    else ([], c :: cs)

/-- One anchored attempt of the pattern `[:/]([\w-]+)/([\w-]+)(?:\.git)?$`
starting at the head of the list and required to consume it entirely. -/
def matchRepoAt : List Char → Option (List Char × List Char)
  | [] => none
  | c :: cs =>
    if c == ':' || c == '/' then
      let ar := takeRun cs
      match ar.2 with
      | sl :: r2 =>
        if sl == '/' && !ar.1.isEmpty then
          let br := takeRun r2
          if !br.1.isEmpty && (br.2.isEmpty || br.2 == ['.', 'g', 'i', 't']) then
            some (ar.1, br.1)
          else none
        else none
      | [] => none
    else none

/-- `re.search` of the pattern: the leftmost position at which
`matchRepoAt` succeeds. -/
def searchRepo : List Char → Option (List Char × List Char)
  | [] => none
  | c :: cs =>
    match matchRepoAt (c :: cs) with
    | some ab => some ab
    | none => searchRepo cs

/-- `get_current_repo_context` from the remote URL on: on a pattern match
returns `f"{match.group(1)}/{match.group(2)}"`, else `None`.  (Locating
the working copy and reading `repo.remotes.origin.url` is I/O and is kept
outside the model; the function takes the remote URL directly.) -/
def get_current_repo_context (remote_url : String) : Option String :=
  (searchRepo remote_url.data).map
    (fun ab => String.mk ab.1 ++ "/" ++ String.mk ab.2)

/-! ## `login` persisted configuration (`main.py`)

The JSON values that actually occur in the record are strings and `null`. -/

inductive JsonValue
  | str : String → JsonValue
  | null : JsonValue
deriving Repr, DecidableEq

/-- The `config_data` dict `login` builds:
`{"token": encrypted_token, "base_url": base_url, "slack_webhook": slack_webhook}`. -/
def loginConfigData (encrypted_token base_url : String)
    (slack_webhook : Option String) : List (String × JsonValue) :=
  [("token", JsonValue.str encrypted_token),
   ("base_url", JsonValue.str base_url),
   ("slack_webhook", match slack_webhook with
     | some w => JsonValue.str w
     | none => JsonValue.null)]

/-- `with open(CONFIG_PATH, "w") as f: json.dump(config_data, f)` — mode
`"w"` truncates, so the file content after the write is the new record,
whatever was stored before. -/
def writeConfigFile (_old new : List (String × JsonValue)) :
    List (String × JsonValue) :=
  new

/-! ## `encrypt_token` / `decrypt_token` (`main.py`)

Python byte strings are `List Nat` (each element a byte value) and Python
text strings are `List Char` (Unicode scalar values, which is what a
Python `str` of well-formed text holds).  `str.encode()` and
`bytes.decode()` default to UTF-8, embedded here as an explicit codec. -/

/-- UTF-8 encoding of one Unicode scalar value (`Char` excludes
surrogates and values above `0x10FFFF` by construction, exactly the
values Python's `str.encode()` accepts). -/
def utf8EncodeChar (c : Char) : List Nat :=
  let n := c.toNat
  if n < 0x80 then [n]
  else if n < 0x800 then [0xC0 + n / 64, 0x80 + n % 64]
  else if n < 0x10000 then [0xE0 + n / 4096, 0x80 + n / 64 % 64, 0x80 + n % 64]
  else [0xF0 + n / 262144, 0x80 + n / 4096 % 64, 0x80 + n / 64 % 64, 0x80 + n % 64]

/-- `str.encode()`: UTF-8 bytes of the text. -/
def utf8Encode : List Char → List Nat
  | [] => []
  | c :: cs => utf8EncodeChar c ++ utf8Encode cs

/-- Decoder state: at a character boundary, or inside a multi-byte
sequence holding the accumulated value, the number of continuation bytes
still expected, and the smallest scalar value the finished sequence is
allowed to denote (the overlong-encoding bound). -/
inductive Utf8State
  | start
  | cont (acc : Nat) (need : Nat) (lo : Nat)

/-- Strict UTF-8 decoding loop (`bytes.decode()` semantics: rejects
continuation bytes out of place, overlong forms, surrogates and values
above `0x10FFFF`); `none` is Python's `UnicodeDecodeError`. -/
def utf8DecodeLoop : Utf8State → List Nat → Option (List Char)
  | Utf8State.start, [] => some []
  | Utf8State.start, b :: bs =>
    if b < 0x80 then (utf8DecodeLoop Utf8State.start bs).map (fun cs => Char.ofNat b :: cs)
    else if b < 0xC0 then none
    else if b < 0xE0 then utf8DecodeLoop (Utf8State.cont (b - 0xC0) 1 0x80) bs
    else if b < 0xF0 then utf8DecodeLoop (Utf8State.cont (b - 0xE0) 2 0x800) bs
    else if b < 0xF8 then utf8DecodeLoop (Utf8State.cont (b - 0xF0) 3 0x10000) bs
    else none
  | Utf8State.cont _ _ _, [] => none
  | Utf8State.cont acc need lo, b :: bs =>
    if 0x80 ≤ b ∧ b < 0xC0 then
      let acc2 := acc * 64 + (b - 0x80)
      if need = 1 then
        if lo ≤ acc2 ∧ acc2 < 0x110000 ∧ ¬(0xD800 ≤ acc2 ∧ acc2 < 0xE000) then
          (utf8DecodeLoop Utf8State.start bs).map (fun cs => Char.ofNat acc2 :: cs)
        else none
      else utf8DecodeLoop (Utf8State.cont acc2 (need - 1) lo) bs
    else none

/-- `bytes.decode()`: UTF-8 decoding of a byte string. -/
def utf8Decode (l : List Nat) : Option (List Char) :=
  utf8DecodeLoop Utf8State.start l

/-- Hex digit of a value below 16, as an ASCII byte (`0`..`9`, `a`..`f`). -/
def hexDigit (d : Nat) : Nat := if d < 10 then 48 + d else 87 + d

/-- Value of an ASCII hex-digit byte. -/
def hexVal (b : Nat) : Nat := if b < 58 then b - 48 else b - 87

/-- Two-hex-digits-per-byte encoding of a byte string. -/
def hexEncode : List Nat → List Nat
  | [] => []
  | b :: bs => hexDigit (b / 16) :: hexDigit (b % 16) :: hexEncode bs

/-- Inverse of `hexEncode`; fails on odd length. -/
def hexDecode : List Nat → Option (List Nat)
  | [] => some []
  | [_] => none
  | h :: l :: bs => (hexDecode bs).map (fun r => (hexVal h * 16 + hexVal l) :: r)

/-- Consumes an exact leading byte sequence, returning the remainder. -/
def dropExact : List Nat → List Nat → Option (List Nat)
  | [], rest => some rest
  | _ :: _, [] => none
  | p :: ps, b :: bs => if p = b then dropExact ps bs else none

/-- Modelled from the external `cryptography.fernet` library contract
(the library is a dependency, not part of this repository): `encrypt`
maps a key and a plaintext byte string to a ciphertext token whose bytes
are printable ASCII, and `decrypt` with the matching key recovers exactly
the plaintext.  The model realises this contract with a key-tagged ASCII
hex encoding. -/
def fernetEncrypt (key pt : List Nat) : List Nat :=
  hexEncode key ++ [44] ++ hexEncode pt

/-- Modelled from the external `cryptography.fernet` library contract:
`decrypt` fails (`InvalidToken`) unless the token was produced under the
same key, and otherwise returns the original plaintext bytes. -/
def fernetDecrypt (key ct : List Nat) : Option (List Nat) :=
  match dropExact (hexEncode key ++ [44]) ct with
  | some rest => hexDecode rest
  | none => none

/-- `encrypt_token`: `f.encrypt(token.encode()).decode()` under the key
`load_or_create_key()` returns (both helpers read the same key file, so
the key is a parameter). -/
def encrypt_token (key : List Nat) (token : List Char) : Option (List Char) :=
  utf8Decode (fernetEncrypt key (utf8Encode token))

/-- `decrypt_token`: `f.decrypt(encrypted_token.encode()).decode()` under
the same persisted key. -/
def decrypt_token (key : List Nat) (encrypted_token : List Char) :
    Option (List Char) :=
  match fernetDecrypt key (utf8Encode encrypted_token) with
  | some pt => utf8Decode pt
  | none => none

/-! ## Claims -/

/-- Claim C1, counterexample: a raw GitHub pull request that has been
merged carries `merged = true` together with `state = "closed"` (the
GitHub API reports only `"open"`/`"closed"` state strings for pull
requests); normalization copies both fields verbatim, so the canonical
object has `merged = true` while its `state` is not `"merged"`. -/
theorem normalization_merged_state_disagree_on_github :
    (standardPRFromGithub
      ⟨7, "Add widget", none, "https://github.com/acme/widgets/pull/7",
       "closed", "alice", true, "feature-widget"⟩).merged = true ∧
    (standardPRFromGithub
      ⟨7, "Add widget", none, "https://github.com/acme/widgets/pull/7",
       "closed", "alice", true, "feature-widget"⟩).state ≠ "merged" := by
  decide

/-- Claim C1, amended: after GitLab normalization `merged` agrees with the
state string by construction (`merged` is derived as `state == "merged"`);
after GitHub normalization `merged` and `state` are copied independently
from the raw object, so the two can disagree (they do on every merged
GitHub pull request, whose raw state is `"closed"`). -/
theorem merged_state_invariant_after_normalization :
    (∀ raw : GitlabRawMR,
      (standardPRFromGitlab raw).merged = true ↔
        (standardPRFromGitlab raw).state = "merged") ∧
    (∀ raw : GithubRawPR,
      (standardPRFromGithub raw).merged = raw.merged ∧
        (standardPRFromGithub raw).state = raw.state) := by
  constructor
  · intro raw
    simp [standardPRFromGitlab]
  · intro raw
    exact ⟨rfl, rfl⟩

/-- Claim C2, counterexample: two merged pull requests that used the same
source-branch name make `find_merged_branches` return that branch twice —
the result is a list with duplicates, not a set containing each merged
source branch exactly once. -/
theorem find_merged_branches_duplicates :
    githubFindMergedBranches
      [⟨1, "a", none, "u1", "closed", "alice", true, "feat"⟩,
       ⟨2, "b", none, "u2", "closed", "alice", true, "feat"⟩]
      = ["feat", "feat"] ∧
    (githubFindMergedBranches
      [⟨1, "a", none, "u1", "closed", "alice", true, "feat"⟩,
       ⟨2, "b", none, "u2", "closed", "alice", true, "feat"⟩]).count "feat" ≠ 1 := by
  decide

/-- Claim C2, amended: on both providers `find_merged_branches` returns a
list (not a set) whose members are exactly the source branches of merged
change requests — every merged change request contributes its branch, no
open or closed-but-not-merged request contributes — with one occurrence
per merged change request, so a branch name reused by several merged
requests appears several times.  For GitHub, which lists `state='closed'`
and filters on the `merged` flag, completeness uses the GitHub API
invariant that a merged pull request is closed. -/
theorem find_merged_branches_characterization
    (repo : List GithubRawPR) (proj : List GitlabRawMR) (b : String)
    (hInv : ∀ p ∈ repo, p.merged = true → p.state = "closed") :
    (b ∈ githubFindMergedBranches repo ↔
      ∃ p ∈ repo, p.merged = true ∧ p.head_ref = b) ∧
    (githubFindMergedBranches repo).count b =
      repo.countP (fun p => p.merged && p.head_ref == b) ∧
    (b ∈ gitlabFindMergedBranches proj ↔
      ∃ mr ∈ proj, mr.state = "merged" ∧ mr.source_branch = b) ∧
    (gitlabFindMergedBranches proj).count b =
      proj.countP (fun mr => mr.state == "merged" && mr.source_branch == b) := by
  refine ⟨?_, ?_, ?_, ?_⟩
  · simp only [githubFindMergedBranches, githubGetPullsClosed, List.mem_map,
      List.mem_filter, beq_iff_eq]
    constructor
    · rintro ⟨p, ⟨⟨hp, hst⟩, hm⟩, href⟩
      exact ⟨p, hp, hm, href⟩
    · rintro ⟨p, hp, hm, href⟩
      exact ⟨p, ⟨⟨hp, hInv p hp hm⟩, hm⟩, href⟩
  · simp only [githubFindMergedBranches, githubGetPullsClosed,
      List.count_eq_countP, List.countP_map, List.countP_filter]
    apply List.countP_congr
    intro p hp
    by_cases hm : p.merged = true
    · simp [hm, hInv p hp hm]
    · simp only [Bool.not_eq_true] at hm
      simp [hm]
  · simp only [gitlabFindMergedBranches, gitlabListMerged, List.mem_map,
      List.mem_filter, beq_iff_eq]
    constructor
    · rintro ⟨mr, ⟨hmr, hst⟩, hb⟩
      exact ⟨mr, hmr, hst, hb⟩
    · rintro ⟨mr, hmr, hst, hb⟩
      exact ⟨mr, ⟨hmr, hst⟩, hb⟩
  · simp only [gitlabFindMergedBranches, gitlabListMerged,
      List.count_eq_countP, List.countP_map, List.countP_filter]
    apply List.countP_congr
    intro mr _
    simp only [Function.comp_apply, Bool.and_comm]

/-- Claim C2 amended, witness at a concrete repository state. -/
theorem find_merged_branches_characterization_witness :
    (∀ p ∈ [(⟨1, "a", none, "u1", "closed", "alice", true, "feat"⟩ : GithubRawPR),
            ⟨2, "b", none, "u2", "open", "alice", false, "wip"⟩],
        p.merged = true → p.state = "closed") ∧
    ((githubFindMergedBranches
        [⟨1, "a", none, "u1", "closed", "alice", true, "feat"⟩,
         ⟨2, "b", none, "u2", "open", "alice", false, "wip"⟩]).count "feat" =
      List.countP (fun p => p.merged && p.head_ref == "feat")
        [(⟨1, "a", none, "u1", "closed", "alice", true, "feat"⟩ : GithubRawPR),
         ⟨2, "b", none, "u2", "open", "alice", false, "wip"⟩]) :=
  ⟨by decide,
    (find_merged_branches_characterization
      [⟨1, "a", none, "u1", "closed", "alice", true, "feat"⟩,
       ⟨2, "b", none, "u2", "open", "alice", false, "wip"⟩]
      [] "feat" (by decide)).2.1⟩

/-- Claim C3: submitting an `"APPROVE"` review through the GitLab client
attempts the native approval; when the merge request is already approved
the approval call raises, the exception is swallowed, and the review still
completes successfully having posted a regular comment that contains the
message body. -/
theorem submit_review_approve_degrades_to_comment
    (mr : GLMRState) (body : String) (hAlready : mr.approved = true) :
    ∃ note,
      gitlabSubmitReview mr "APPROVE" body =
        Except.ok { mr with notes := mr.notes ++ [note] } ∧
      body.data <:+: note.data := by
  refine ⟨"✅ Approved: " ++ body, ?_, ?_⟩
  · simp [gitlabSubmitReview, mrApprove, hAlready]
  · rw [String.data_append]
    exact (List.suffix_append _ _).isInfix

/-- Claim C3, witness: an already-approved merge request with message
`"lgtm"`. -/
theorem submit_review_approve_degrades_to_comment_witness :
    (GLMRState.mk true ["earlier note"]).approved = true ∧
    ∃ note,
      gitlabSubmitReview ⟨true, ["earlier note"]⟩ "APPROVE" "lgtm" =
        Except.ok ⟨true, ["earlier note"] ++ [note]⟩ ∧
      "lgtm".data <:+: note.data :=
  ⟨rfl, submit_review_approve_degrades_to_comment ⟨true, ["earlier note"]⟩ "lgtm" rfl⟩

/-- Claim C4: with `isDraft = true` the GitLab client submits the title
`"Draft: " + title` (and the unmodified title with `isDraft = false`),
while the GitHub client always submits the title unmodified and passes the
native draft flag through. -/
theorem create_pr_draft_title_encoding (t b s tg : String) :
    (gitlabCreatePrRequest t b s tg true).title = "Draft: " ++ t ∧
    (gitlabCreatePrRequest t b s tg false).title = t ∧
    (∀ d : Bool, (githubCreatePrRequest t b s tg d).title = t ∧
      (githubCreatePrRequest t b s tg d).draft = d) :=
  ⟨rfl, rfl, fun _ => ⟨rfl, rfl⟩⟩

/-- Claim C5: the remote-URL pattern match of `get_current_repo_context`
extracts owner `"acme"` and name `"widgets"` from both the SSH-style and
the HTTPS-style remote URL, stripping the `.git` suffix. -/
theorem resolve_context_ssh_and_https :
    get_current_repo_context "git@host:acme/widgets.git" = some "acme/widgets" ∧
    get_current_repo_context "https://host/acme/widgets.git" = some "acme/widgets" := by
  constructor <;> rfl

/-- Claim C6, counterexample: the record `login` persists is a flat,
single-provider object — its top-level keys are `token`, `base_url` and
`slack_webhook`, not provider names — and writing it truncates the file,
so a previously stored entry for a second provider is clobbered. -/
theorem login_config_flat_and_clobbers :
    (loginConfigData "enc" "https://api.github.com" none).map Prod.fst
      = ["token", "base_url", "slack_webhook"] ∧
    writeConfigFile [("gitlab", JsonValue.str "old")]
      (loginConfigData "enc" "https://api.github.com" none)
      = loginConfigData "enc" "https://api.github.com" none ∧
    "gitlab" ∉ (writeConfigFile [("gitlab", JsonValue.str "old")]
      (loginConfigData "enc" "https://api.github.com" none)).map Prod.fst := by
  decide

/-- Claim C6, amended: the persisted configuration record written by
`login` is a flat JSON object with exactly the top-level keys `token`
(the encrypted token), `base_url` and `slack_webhook` (the optional
notification webhook) — provider names never appear as keys — and the
write replaces the whole file, so any previously stored configuration,
for any provider, is clobbered rather than merged. -/
theorem login_config_record_shape (tok url : String) (wh : Option String)
    (old : List (String × JsonValue)) :
    (loginConfigData tok url wh).map Prod.fst
      = ["token", "base_url", "slack_webhook"] ∧
    writeConfigFile old (loginConfigData tok url wh) = loginConfigData tok url wh :=
  ⟨rfl, rfl⟩

/-- Claim C8, counterexample: a raw merge request whose nullable
description is `None` normalizes to a canonical object whose `body` is
`None`, not the empty string (the constructor copies the field verbatim;
it does not substitute `""`). -/
theorem normalization_null_body_not_empty_string :
    (standardPRFromGitlab ⟨7, "t", none, "u", "opened", "alice", "feat"⟩).body
      ≠ some "" ∧
    (standardPRFromGitlab ⟨7, "t", none, "u", "opened", "alice", "feat"⟩).body
      = none ∧
    (standardPRFromGithub ⟨7, "t", none, "u", "open", "alice", false, "feat"⟩).body
      = none := by
  decide

/-- Claim C8, amended: normalization does not raise on a null optional
body/description — the field is simply copied — so a null raw field
yields a change request whose `body` is null (`None`), not the empty
string. -/
theorem normalization_preserves_null_body (gh : GithubRawPR) (gl : GitlabRawMR)
    (h1 : gh.body = none) (h2 : gl.description = none) :
    (standardPRFromGithub gh).body = none ∧
    (standardPRFromGitlab gl).body = none :=
  ⟨h1, h2⟩

/-- Claim C8 amended, witness at concrete raw objects with null bodies. -/
theorem normalization_preserves_null_body_witness :
    (GithubRawPR.mk 7 "t" none "u" "open" "alice" false "feat").body = none ∧
    ((standardPRFromGithub ⟨7, "t", none, "u", "open", "alice", false, "feat"⟩).body = none ∧
     (standardPRFromGitlab ⟨8, "s", none, "u2", "opened", "bob", "dev"⟩).body = none) :=
  ⟨rfl, normalization_preserves_null_body
    ⟨7, "t", none, "u", "open", "alice", false, "feat"⟩
    ⟨8, "s", none, "u2", "opened", "bob", "dev"⟩ rfl rfl⟩

/-- Field-level characterization of `GitHubForge.edit_pr`: each stored
field is replaced exactly when the corresponding argument is truthy. -/
theorem githubEditPr_eq (pr : StoredPR) (t b : Option String) :
    githubEditPr pr t b =
      ⟨if pyTruthy t then t.getD pr.title else pr.title,
       if pyTruthy b then b.getD pr.body else pr.body⟩ := by
  unfold githubEditPr
  by_cases ht : pyTruthy t = true <;> by_cases hb : pyTruthy b = true <;>
    simp [ht, hb]

/-- Field-level characterization of `GitLabForge.edit_pr`: each stored
field is replaced exactly when the corresponding argument is truthy. -/
theorem gitlabEditPr_eq (pr : StoredPR) (t b : Option String) :
    gitlabEditPr pr t b =
      ⟨if pyTruthy t then t.getD pr.title else pr.title,
       if pyTruthy b then b.getD pr.body else pr.body⟩ := by
  unfold gitlabEditPr
  cases t with
  | none =>
    cases b with
    | none => simp [pyTruthy]
    | some r => by_cases hr : r = "" <;> simp [pyTruthy, hr]
  | some s =>
    cases b with
    | none => by_cases hs : s = "" <;> simp [pyTruthy, hs]
    | some r =>
      by_cases hs : s = "" <;> by_cases hr : r = "" <;> simp [pyTruthy, hs, hr]

/-- Truthiness of an optional string argument is falsity of
omitted-or-empty. -/
theorem pyTruthy_eq_false_iff (t : Option String) :
    pyTruthy t = false ↔ t = none ∨ t = some "" := by
  cases t with
  | none => simp [pyTruthy]
  | some s => simp [pyTruthy]

/-- Claim C9: on both providers `edit_pr` updates only the supplied
non-empty fields — an omitted (`None`) or empty title leaves the stored
title untouched, an omitted or empty body leaves the stored body
untouched, and a non-empty supplied field replaces exactly that field. -/
theorem edit_pr_updates_only_supplied_fields (pr : StoredPR) (t b : Option String) :
    ((t = none ∨ t = some "") →
      (githubEditPr pr t b).title = pr.title ∧ (gitlabEditPr pr t b).title = pr.title) ∧
    ((b = none ∨ b = some "") →
      (githubEditPr pr t b).body = pr.body ∧ (gitlabEditPr pr t b).body = pr.body) ∧
    (∀ s : String, s ≠ "" → t = some s →
      (githubEditPr pr t b).title = s ∧ (gitlabEditPr pr t b).title = s) ∧
    (∀ s : String, s ≠ "" → b = some s →
      (githubEditPr pr t b).body = s ∧ (gitlabEditPr pr t b).body = s) := by
  refine ⟨?_, ?_, ?_, ?_⟩
  · intro h
    have ht : pyTruthy t = false := (pyTruthy_eq_false_iff t).mpr h
    rw [githubEditPr_eq, gitlabEditPr_eq]
    simp [ht]
  · intro h
    have hb : pyTruthy b = false := (pyTruthy_eq_false_iff b).mpr h
    rw [githubEditPr_eq, gitlabEditPr_eq]
    simp [hb]
  · rintro s hs rfl
    have ht : pyTruthy (some s) = true := by
      simp [pyTruthy, hs]
    rw [githubEditPr_eq, gitlabEditPr_eq]
    simp [ht]
  · rintro s hs rfl
    have hb : pyTruthy (some s) = true := by
      simp [pyTruthy, hs]
    rw [githubEditPr_eq, gitlabEditPr_eq]
    simp [hb]

/-- Claim C9, witness: an empty new title leaves the title untouched
while a non-empty new body replaces the body. -/
theorem edit_pr_updates_only_supplied_fields_witness :
    ((some "" : Option String) = none ∨ (some "" : Option String) = some "") ∧
    ((githubEditPr ⟨"Old title", "Old body"⟩ (some "") (some "New body")).title
        = "Old title" ∧
     (gitlabEditPr ⟨"Old title", "Old body"⟩ (some "") (some "New body")).title
        = "Old title") :=
  ⟨Or.inr rfl,
    (edit_pr_updates_only_supplied_fields
      ⟨"Old title", "Old body"⟩ (some "") (some "New body")).1 (Or.inr rfl)⟩

/-- Claim C10: constructing the GitLab client with a base URL containing
`"api.github.com"` silently substitutes `"https://gitlab.com"`; any other
base URL is used unchanged. -/
theorem gitlab_base_url_substitution (url : String) :
    ("api.github.com".data <:+: url.data →
      gitlabEffectiveBaseUrl url = "https://gitlab.com") ∧
    (¬ "api.github.com".data <:+: url.data →
      gitlabEffectiveBaseUrl url = url) := by
  constructor <;> intro h <;> simp [gitlabEffectiveBaseUrl, h]

/-- Claim C10, witness at a GitHub-style and an unrelated base URL. -/
theorem gitlab_base_url_substitution_witness :
    ("api.github.com".data <:+: "https://api.github.com".data ∧
      gitlabEffectiveBaseUrl "https://api.github.com" = "https://gitlab.com") ∧
    (¬ "api.github.com".data <:+: "https://gitlab.example.com".data ∧
      gitlabEffectiveBaseUrl "https://gitlab.example.com"
        = "https://gitlab.example.com") :=
  ⟨⟨by decide, (gitlab_base_url_substitution "https://api.github.com").1 (by decide)⟩,
   ⟨by decide, (gitlab_base_url_substitution "https://gitlab.example.com").2 (by decide)⟩⟩

/-! ## UTF-8 / hex codec lemmas and the round-trip claim -/

theorem utf8DecodeLoop_encodeChar (c : Char) (rest : List Nat) :
    utf8DecodeLoop Utf8State.start (utf8EncodeChar c ++ rest) =
      (utf8DecodeLoop Utf8State.start rest).map (fun cs => c :: cs) := by
  have hv : c.toNat < 55296 ∨ 57343 < c.toNat ∧ c.toNat < 1114112 := c.valid
  by_cases h1 : c.toNat < 0x80
  · have he : utf8EncodeChar c = [c.toNat] := by
      simp [utf8EncodeChar, h1]
    rw [he, List.cons_append, List.nil_append]
    simp only [utf8DecodeLoop, if_pos h1, Char.ofNat_toNat]
  · by_cases h2 : c.toNat < 0x800
    · have he : utf8EncodeChar c = [0xC0 + c.toNat / 64, 0x80 + c.toNat % 64] := by
        simp [utf8EncodeChar, h1, h2]
      rw [he]
      have ha : ¬(0xC0 + c.toNat / 64 < 0x80) := by omega
      have hb : ¬(0xC0 + c.toNat / 64 < 0xC0) := by omega
      have hc : 0xC0 + c.toNat / 64 < 0xE0 := by omega
      have hd : 0x80 ≤ 0x80 + c.toNat % 64 ∧ 0x80 + c.toNat % 64 < 0xC0 := by omega
      simp only [List.cons_append, List.nil_append, utf8DecodeLoop,
        if_neg ha, if_neg hb, if_pos hc, if_pos hd]
      have hacc : (0xC0 + c.toNat / 64 - 0xC0) * 64 + (0x80 + c.toNat % 64 - 0x80)
          = c.toNat := by omega
      rw [hacc]
      have hok : 0x80 ≤ c.toNat ∧ c.toNat < 0x110000 ∧
          ¬(0xD800 ≤ c.toNat ∧ c.toNat < 0xE000) := by omega
      simp only [if_pos rfl, if_pos hok, Char.ofNat_toNat]
      simp
    · by_cases h3 : c.toNat < 0x10000
      · have he : utf8EncodeChar c =
            [0xE0 + c.toNat / 4096, 0x80 + c.toNat / 64 % 64, 0x80 + c.toNat % 64] := by
          simp [utf8EncodeChar, h1, h2, h3]
        rw [he]
        have ha : ¬(0xE0 + c.toNat / 4096 < 0x80) := by omega
        have hb : ¬(0xE0 + c.toNat / 4096 < 0xC0) := by omega
        have hc : ¬(0xE0 + c.toNat / 4096 < 0xE0) := by omega
        have hd : 0xE0 + c.toNat / 4096 < 0xF0 := by omega
        have hd1 : 0x80 ≤ 0x80 + c.toNat / 64 % 64 ∧ 0x80 + c.toNat / 64 % 64 < 0xC0 := by
          omega
        have hd2 : 0x80 ≤ 0x80 + c.toNat % 64 ∧ 0x80 + c.toNat % 64 < 0xC0 := by omega
        have hne : ¬((2 : Nat) = 1) := by omega
        simp only [List.cons_append, List.nil_append, utf8DecodeLoop,
          if_neg ha, if_neg hb, if_neg hc, if_pos hd, if_pos hd1, if_pos hd2, if_neg hne]
        have hacc : ((0xE0 + c.toNat / 4096 - 0xE0) * 64 + (0x80 + c.toNat / 64 % 64 - 0x80))
            * 64 + (0x80 + c.toNat % 64 - 0x80) = c.toNat := by omega
        rw [hacc]
        have hok : 0x800 ≤ c.toNat ∧ c.toNat < 0x110000 ∧
            ¬(0xD800 ≤ c.toNat ∧ c.toNat < 0xE000) := by omega
        simp only [if_pos rfl, if_pos hok, Char.ofNat_toNat]
        simp
      · have h4 : c.toNat < 0x110000 := by omega
        have he : utf8EncodeChar c =
            [0xF0 + c.toNat / 262144, 0x80 + c.toNat / 4096 % 64,
             0x80 + c.toNat / 64 % 64, 0x80 + c.toNat % 64] := by
          simp [utf8EncodeChar, h1, h2, h3]
        rw [he]
        have ha : ¬(0xF0 + c.toNat / 262144 < 0x80) := by omega
        have hb : ¬(0xF0 + c.toNat / 262144 < 0xC0) := by omega
        have hc : ¬(0xF0 + c.toNat / 262144 < 0xE0) := by omega
        have hd : ¬(0xF0 + c.toNat / 262144 < 0xF0) := by omega
        have hd0 : 0xF0 + c.toNat / 262144 < 0xF8 := by omega
        have hd1 : 0x80 ≤ 0x80 + c.toNat / 4096 % 64 ∧ 0x80 + c.toNat / 4096 % 64 < 0xC0 := by
          omega
        have hd2 : 0x80 ≤ 0x80 + c.toNat / 64 % 64 ∧ 0x80 + c.toNat / 64 % 64 < 0xC0 := by
          omega
        have hd3 : 0x80 ≤ 0x80 + c.toNat % 64 ∧ 0x80 + c.toNat % 64 < 0xC0 := by omega
        have hne3 : ¬((3 : Nat) = 1) := by omega
        have hne2 : ¬((2 : Nat) = 1) := by omega
        simp only [List.cons_append, List.nil_append, utf8DecodeLoop,
          if_neg ha, if_neg hb, if_neg hc, if_neg hd, if_pos hd0, if_pos hd1,
          if_pos hd2, if_pos hd3, if_neg hne3, if_neg hne2]
        have hacc : (((0xF0 + c.toNat / 262144 - 0xF0) * 64 +
            (0x80 + c.toNat / 4096 % 64 - 0x80)) * 64 + (0x80 + c.toNat / 64 % 64 - 0x80))
            * 64 + (0x80 + c.toNat % 64 - 0x80) = c.toNat := by omega
        rw [hacc]
        have hok : 0x10000 ≤ c.toNat ∧ c.toNat < 0x110000 ∧
            ¬(0xD800 ≤ c.toNat ∧ c.toNat < 0xE000) := by omega
        simp only [if_pos rfl, if_pos hok, Char.ofNat_toNat]
        simp


theorem utf8Decode_utf8Encode (s : List Char) :
    utf8Decode (utf8Encode s) = some s := by
  induction s with
  | nil => rfl
  | cons c cs ih =>
    show utf8DecodeLoop Utf8State.start (utf8EncodeChar c ++ utf8Encode cs) = _
    rw [utf8DecodeLoop_encodeChar]
    rw [show utf8DecodeLoop Utf8State.start (utf8Encode cs) = some cs from ih]
    rfl

theorem utf8EncodeChar_lt (c : Char) : ∀ b ∈ utf8EncodeChar c, b < 256 := by
  have hv : c.toNat < 55296 ∨ 57343 < c.toNat ∧ c.toNat < 1114112 := c.valid
  intro b hb
  unfold utf8EncodeChar at hb
  by_cases h1 : c.toNat < 0x80 <;> by_cases h2 : c.toNat < 0x800 <;>
    by_cases h3 : c.toNat < 0x10000 <;>
    simp [h1, h2, h3] at hb <;> omega

theorem utf8Encode_lt (s : List Char) : ∀ b ∈ utf8Encode s, b < 256 := by
  induction s with
  | nil =>
    intro b hb
    simp [utf8Encode] at hb
  | cons c cs ih =>
    intro b hb
    simp only [utf8Encode, List.mem_append] at hb
    rcases hb with hb | hb
    · exact utf8EncodeChar_lt c b hb
    · exact ih b hb

theorem hexVal_hexDigit (d : Nat) (h : d < 16) : hexVal (hexDigit d) = d := by
  unfold hexVal hexDigit
  by_cases h10 : d < 10
  · rw [if_pos h10, if_pos (by omega : 48 + d < 58)]
    omega
  · rw [if_neg h10, if_neg (by omega : ¬(87 + d < 58))]
    omega

theorem hexDecode_hexEncode (l : List Nat) (h : ∀ b ∈ l, b < 256) :
    hexDecode (hexEncode l) = some l := by
  induction l with
  | nil => rfl
  | cons b bs ih =>
    have hb : b < 256 := h b (by simp)
    have ih2 := ih (fun x hx => h x (List.mem_cons_of_mem b hx))
    show hexDecode (hexDigit (b / 16) :: hexDigit (b % 16) :: hexEncode bs) = _
    simp only [hexDecode, ih2, Option.map_some]
    rw [hexVal_hexDigit _ (by omega), hexVal_hexDigit _ (by omega)]
    have hm : b / 16 * 16 + b % 16 = b := by omega
    rw [hm]
    rfl

theorem hexEncode_ascii (l : List Nat) (h : ∀ b ∈ l, b < 256) :
    ∀ d ∈ hexEncode l, d < 0x80 := by
  induction l with
  | nil =>
    intro d hd
    simp [hexEncode] at hd
  | cons b bs ih =>
    intro d hd
    have hb : b < 256 := h b (by simp)
    simp only [hexEncode, List.mem_cons] at hd
    rcases hd with rfl | rfl | hd
    · unfold hexDigit
      by_cases h10 : b / 16 < 10 <;> simp [h10] <;> omega
    · unfold hexDigit
      by_cases h10 : b % 16 < 10 <;> simp [h10] <;> omega
    · exact ih (fun x hx => h x (List.mem_cons_of_mem b hx)) d hd

theorem utf8Decode_ascii (l : List Nat) (h : ∀ b ∈ l, b < 0x80) :
    utf8Decode l = some (l.map Char.ofNat) := by
  induction l with
  | nil => rfl
  | cons b bs ih =>
    have hb : b < 0x80 := h b (by simp)
    have ih2 := ih (fun x hx => h x (List.mem_cons_of_mem b hx))
    show utf8DecodeLoop Utf8State.start (b :: bs) = _
    simp only [utf8DecodeLoop, if_pos hb]
    rw [show utf8DecodeLoop Utf8State.start bs = some (bs.map Char.ofNat) from ih2]
    rfl

theorem utf8Encode_ascii (l : List Nat) (h : ∀ b ∈ l, b < 0x80) :
    utf8Encode (l.map Char.ofNat) = l := by
  induction l with
  | nil => rfl
  | cons b bs ih =>
    have hb : b < 0x80 := h b (by simp)
    have ih2 := ih (fun x hx => h x (List.mem_cons_of_mem b hx))
    have htn : (Char.ofNat b).toNat = b := by
      have hvb : b.isValidChar := Or.inl (by omega)
      simp only [Char.ofNat, dif_pos hvb]
      rfl
    show utf8EncodeChar (Char.ofNat b) ++ utf8Encode (bs.map Char.ofNat) = b :: bs
    have he : utf8EncodeChar (Char.ofNat b) = [b] := by
      simp only [utf8EncodeChar, htn]
      rw [if_pos (by omega : b < 0x80)]
    rw [he, ih2]
    rfl

theorem dropExact_append (p rest : List Nat) : dropExact p (p ++ rest) = some rest := by
  induction p with
  | nil => rfl
  | cons x xs ih => simp [dropExact, ih]

/-- Claim C7: decrypting an encrypted token under the same persisted key
returns the original plaintext, for every string including the empty one
and strings with multibyte characters. -/
theorem encrypt_then_decrypt_roundtrip (key : List Nat) (s : List Char)
    (hkey : ∀ b ∈ key, b < 256) :
    (encrypt_token key s).bind (decrypt_token key) = some s := by
  have hpt : ∀ b ∈ utf8Encode s, b < 256 := utf8Encode_lt s
  have hct : ∀ b ∈ fernetEncrypt key (utf8Encode s), b < 0x80 := by
    intro b hb
    simp only [fernetEncrypt, List.append_assoc, List.singleton_append,
      List.mem_append, List.mem_cons] at hb
    rcases hb with hb | rfl | hb
    · exact hexEncode_ascii key hkey b hb
    · omega
    · exact hexEncode_ascii _ hpt b hb
  have e2 : fernetDecrypt key (fernetEncrypt key (utf8Encode s)) = some (utf8Encode s) := by
    unfold fernetDecrypt fernetEncrypt
    rw [dropExact_append]
    show hexDecode (hexEncode (utf8Encode s)) = some (utf8Encode s)
    exact hexDecode_hexEncode _ hpt
  have e1 : encrypt_token key s
      = some ((fernetEncrypt key (utf8Encode s)).map Char.ofNat) := by
    unfold encrypt_token
    exact utf8Decode_ascii _ hct
  have e3 : decrypt_token key ((fernetEncrypt key (utf8Encode s)).map Char.ofNat)
      = some s := by
    unfold decrypt_token
    rw [utf8Encode_ascii _ hct, e2]
    show utf8Decode (utf8Encode s) = some s
    exact utf8Decode_utf8Encode s
  rw [e1]
  exact e3

/-- Claim C7, witness: a concrete byte key and a plaintext containing
multibyte characters. -/
theorem encrypt_then_decrypt_roundtrip_witness :
    (∀ b ∈ [0, 7, 255], b < 256) ∧
    (encrypt_token [0, 7, 255] "héllo ∀".data).bind (decrypt_token [0, 7, 255])
      = some "héllo ∀".data :=
  ⟨by decide, encrypt_then_decrypt_roundtrip [0, 7, 255] "héllo ∀".data (by decide)⟩


end GitPR
